import Mathlib

/-!
Verification of `koofr_downloader.py`.

The program is a single linear pipeline: parse a share URL, issue a metadata
GET, issue a download GET, open the result as a zip archive and write the
entries whose lowercased name ends in a configured media suffix under an
output directory.  This file embeds that pipeline shallowly:

* strings are Lean `String`s, manipulated through structural functions on
  their character lists (mirroring the Python `str` methods used);
* bytes are naturals below 256;
* the two HTTP calls, the `os.path.exists` probe and the zip decoder are
  oracle inputs collected in an `Env`; the run's side effects (directory
  creation, requests issued, file writes) are returned in a `RunTrace`;
* the on-disk file state is a map `String → Option (List Nat)`.
-/

namespace KoofrDL

/-! ## Bytes and percent-quoting (`urllib.parse.quote`) -/

/-- UTF-8 encoding of one character, as naturals below 256.  Models Python's
encoding of `str` to bytes before percent-quoting. -/
def utf8Bytes (c : Char) : List Nat :=
  let n := c.toNat
  if n < 128 then [n]
  else if n < 2048 then [192 + n / 64, 128 + n % 64]
  else if n < 65536 then [224 + n / 4096, 128 + (n / 64) % 64, 128 + n % 64]
  else [240 + n / 262144, 128 + (n / 4096) % 64, 128 + (n / 64) % 64, 128 + n % 64]

/-- Uppercase hexadecimal digit for `n < 16`. -/
def hexDigit (n : Nat) : Char := if n < 10 then Char.ofNat (48 + n) else Char.ofNat (55 + n)

/-- Bytes left verbatim by `urllib.parse.quote(s, safe='/')`: ASCII letters,
digits, `_`, `.`, `-`, `~` and the default-safe `/`. -/
def quoteSafe (b : Nat) : Bool :=
  (65 ≤ b && b ≤ 90) || (97 ≤ b && b ≤ 122) || (48 ≤ b && b ≤ 57) ||
  b == 95 || b == 46 || b == 45 || b == 126 || b == 47

/-- Embedding of `urllib.parse.quote(s, safe='/')` (used for the password and
for the zip file name). -/
def pyQuote (s : String) : String :=
  String.mk ((s.data.flatMap utf8Bytes).flatMap fun b =>
    if quoteSafe b then [Char.ofNat b]
    else ['%', hexDigit (b / 16), hexDigit (b % 16)])

/-! ## Character-list utilities shared by the URL parser -/

/-- `c ∈ s`, as the Python `in` test on strings (restricted to one character). -/
def containsC (c : Char) : List Char → Bool
  | [] => false
  | d :: rest => d == c || containsC c rest

/-- Does the list start with `'/'`? -/
def startsWithSlash : List Char → Bool
  | '/' :: _ => true
  | _ => false

/-! ## `urllib.parse.urlparse`

Embedding of the pieces of `urlparse` the program reads (`.path` and
`.query`): removal of tab/CR/LF, scheme split at the first `:`, netloc up to
the first of `/?#` after a leading `//`, fragment split at the first `#`,
query split at the first `?`, and the `;params` split on the last path
segment.  (The bracket/IDNA validation of netlocs is not modelled.) -/

/-- Characters kept by `urlsplit`; it deletes tab, CR and LF first. -/
def urlKeepChar (c : Char) : Bool := !(c == '\t' || c == '\r' || c == '\n')

/-- Characters allowed in a URL scheme. -/
def schemeChar (c : Char) : Bool := c.isAlpha || c.isDigit || c == '+' || c == '-' || c == '.'

/-- Scan to the first `:`; succeed if every character before it is a scheme
character (mirrors `url.find(':')` plus the validation loop). -/
def splitSchemeAux : List Char → List Char → Option (List Char × List Char)
  | [], _ => none
  | c :: rest, acc =>
    if c == ':' then some (acc.reverse, rest)
    else if schemeChar c then splitSchemeAux rest (c :: acc)
    else none

/-- Split off a (lowercased) scheme, requiring a nonempty alphabetic start,
as `urlsplit` does. -/
def splitScheme (s : List Char) : List Char × List Char :=
  match splitSchemeAux s [] with
  | some (sch, rest) =>
    match sch with
    | [] => ([], s)
    | c :: cs => if c.isAlpha then ((c :: cs).map Char.toLower, rest) else ([], s)
  | none => ([], s)

/-- Characters that do not terminate a netloc. -/
def netlocChar (c : Char) : Bool := !(c == '/' || c == '?' || c == '#')

/-- After a leading `//`, the netloc runs to the first of `/?#`. -/
def splitNetloc : List Char → List Char × List Char
  | '/' :: '/' :: rest => (rest.takeWhile netlocChar, rest.dropWhile netlocChar)
  | s => ([], s)

/-- `url.split('#', 1)` guarded by `'#' in url`. -/
def splitHash (s : List Char) : List Char × List Char :=
  if containsC '#' s then
    (s.takeWhile (fun c => !(c == '#')), (s.dropWhile (fun c => !(c == '#'))).drop 1)
  else (s, [])

/-- `url.split('?', 1)` guarded by `'?' in url`. -/
def splitQmark (s : List Char) : List Char × List Char :=
  if containsC '?' s then
    (s.takeWhile (fun c => !(c == '?')), (s.dropWhile (fun c => !(c == '?'))).drop 1)
  else (s, [])

/-- Split at the last `'/'`: the first component keeps the slash, the second
is the final segment. -/
def splitAtLastSlash (s : List Char) : List Char × List Char :=
  let rsuf := s.reverse.takeWhile (fun c => !(c == '/'))
  (s.take (s.length - rsuf.length), rsuf.reverse)

/-- `urllib.parse._splitparams`: split `;params` off the last path segment. -/
def splitParams (s : List Char) : List Char × List Char :=
  let seg := (splitAtLastSlash s).2
  if containsC ';' seg then
    ((splitAtLastSlash s).1 ++ seg.takeWhile (fun c => !(c == ';')),
     (seg.dropWhile (fun c => !(c == ';'))).drop 1)
  else (s, [])

structure UrlParts where
  scheme : List Char
  netloc : List Char
  path : List Char
  params : List Char
  query : List Char
  fragment : List Char
deriving DecidableEq

/-- `urllib.parse.urlparse` on a character list. -/
def urlparseL (url : List Char) : UrlParts :=
  let s0 := url.filter urlKeepChar
  let p1 := splitScheme s0
  let p2 := splitNetloc p1.2
  let p3 := splitHash p2.2
  let p4 := splitQmark p3.1
  let p5 := splitParams p4.1
  ⟨p1.1, p2.1, p5.1, p5.2, p4.2, p3.2⟩

/-- `urllib.parse.urlparse` on a string. -/
def pyUrlparse (url : String) : UrlParts := urlparseL url.data

/-! ## The `/links/` marker split (`parsed_url.path.split('/links/')`) -/

/-- Does the list contain the marker `/links/` anywhere? -/
def containsMarkerB : List Char → Bool
  | [] => false
  | '/' :: 'l' :: 'i' :: 'n' :: 'k' :: 's' :: '/' :: _ => true
  | _ :: rest => containsMarkerB rest

/-- Python `path.split('/links/')`: non-overlapping left-to-right split. -/
def splitOnLinks : List Char → List (List Char)
  | [] => [[]]
  | '/' :: 'l' :: 'i' :: 'n' :: 'k' :: 's' :: '/' :: rest => [] :: splitOnLinks rest
  | c :: rest =>
    match splitOnLinks rest with
    | [] => [[c]]
    | h :: t => (c :: h) :: t

/-- Lines 26–31 of the source: `urlparse`, split the path on `/links/`, fail
when the marker is absent, else take the second part up to a `?`. -/
def parseLinkId (linkUrl : String) : Option String :=
  let parts := splitOnLinks (pyUrlparse linkUrl).path
  if parts.length < 2 then none
  else some (String.mk ((parts.getD 1 []).takeWhile (fun c => !(c == '?'))))

/-! ## String predicates used by the extractor -/

/-- Python `s.endswith(suf)` on character lists. -/
def endsWithL (s suf : List Char) : Bool := s.drop (s.length - suf.length) == suf

/-- Python `s.lower()` on character lists (ASCII case mapping). -/
def toLowerL (s : List Char) : List Char := s.map Char.toLower

/-! ## Archive entries and the extraction loop (lines 79–95) -/

/-- One entry of the downloaded zip: its name and its decoded bytes. -/
structure ZipEntry where
  filename : String
  content : List Nat
deriving DecidableEq

/-- The default `media_extensions` list (lines 19–20). -/
def defaultMediaExtensions : List String :=
  [".jpg", ".jpeg", ".png", ".gif", ".bmp", ".webp", ".tiff",
   ".mp4", ".mov", ".avi", ".mkv", ".webm", ".flv", ".wmv"]

/-- `ZipInfo.is_dir()`: the name ends with `/`. -/
def isDirEntry (e : ZipEntry) : Bool := endsWithL e.filename.data ['/']

/-- Line 86: `any(filename_lower.endswith(ext) for ext in media_extensions)`
where `filename_lower = file_info.filename.lower()`. -/
def nameMatches (exts : List String) (name : String) : Bool :=
  exts.any fun ext => endsWithL (toLowerL name.data) ext.data

/-- An entry is written iff it is not a directory and its lowercased name
ends with a configured suffix. -/
def shouldExtract (exts : List String) (e : ZipEntry) : Bool :=
  !isDirEntry e && nameMatches exts e.filename

/-- Python `s.lstrip('/')`. -/
def lstripSlash (s : String) : String := String.mk (s.data.dropWhile fun c => c == '/')

/-- `os.path.join` (POSIX, two arguments). -/
def osPathJoin (a b : String) : String :=
  if startsWithSlash b.data then b
  else if a.data == [] || endsWithL a.data ['/'] then a ++ b
  else a ++ "/" ++ b

/-- Line 88: `os.path.join(output_folder, file_info.filename.lstrip('/'))`. -/
def extractPath (outputFolder : String) (e : ZipEntry) : String :=
  osPathJoin outputFolder (lstripSlash e.filename)

/-- The sequence of file writes the loop performs, in archive order. -/
def extractWrites (exts : List String) (out : String) (entries : List ZipEntry) :
    List (String × List Nat) :=
  (entries.filter (shouldExtract exts)).map fun e => (extractPath out e, e.content)

/-- The files on disk: a map from path to byte content. -/
def FS : Type := String → Option (List Nat)

/-- No files on disk. -/
def emptyFS : FS := fun _ => none

/-- `open(p, 'wb').write(v)`: overwrite `p` with `v`. -/
def fsWrite (fs : FS) (p : String) (v : List Nat) : FS :=
  fun q => if q = p then some v else fs q

/-- Apply a sequence of writes in order. -/
def applyWrites : List (String × List Nat) → FS → FS
  | [], fs => fs
  | (p, v) :: ws, fs => applyWrites ws (fsWrite fs p v)

/-- The value of the last write to `q` in the sequence, if any. -/
def lastWriteVal : List (String × List Nat) → String → Option (List Nat)
  | [], _ => none
  | (p, v) :: ws, q =>
    match lastWriteVal ws q with
    | some w => some w
    | none => if p = q then some v else none

/-- Lines 82–95: the extraction loop.  Skips directory entries, writes each
matching entry's bytes to its destination path and counts it. -/
def extractLoop (exts : List String) (out : String) : List ZipEntry → FS → Nat × FS
  | [], fs => (0, fs)
  | e :: es, fs =>
    if isDirEntry e then extractLoop exts out es fs
    else if nameMatches exts e.filename then
      let r := extractLoop exts out es (fsWrite fs (extractPath out e) e.content)
      (r.1 + 1, r.2)
    else extractLoop exts out es fs

/-! ## POSIX path resolution (for the traversal claim)

The extractor never normalizes its destination path; the following models how
the operating system resolves `.` and `..` segments when that path is opened
(`posixpath.normpath`, no symbolic links). -/

/-- Python `s.split('/')`. -/
def splitSlashL : List Char → List (List Char)
  | [] => [[]]
  | c :: rest =>
    if c == '/' then [] :: splitSlashL rest
    else
      match splitSlashL rest with
      | [] => [[c]]
      | h :: t => (c :: h) :: t

/-- The segment-processing loop of `posixpath.normpath`: drop empty and `.`
segments, let `..` pop the last kept segment when one exists. -/
def normComps (initSlash : Bool) : List (List Char) → List (List Char) → List (List Char)
  | acc, [] => acc.reverse
  | acc, comp :: rest =>
    if comp == [] || comp == ['.'] then normComps initSlash acc rest
    else if !(comp == ['.', '.']) || (!initSlash && acc == []) ||
        (!(acc == []) && acc.headD [] == ['.', '.']) then
      normComps initSlash (comp :: acc) rest
    else normComps initSlash (acc.drop 1) rest

/-- `'/'.join(comps)`. -/
def joinSlashL : List (List Char) → List Char
  | [] => []
  | [x] => x
  | x :: rest => x ++ '/' :: joinSlashL rest

/-- `posixpath.normpath`: how the OS resolves the written path. -/
def normPath (p : String) : String :=
  match p.data with
  | [] => "."
  | c :: rest =>
    let initSlash := startsWithSlash (c :: rest)
    let comps := splitSlashL (c :: rest)
    let body := joinSlashL (normComps initSlash [] comps)
    let slashes : List Char :=
      if initSlash then
        match rest with
        | '/' :: rest2 => if startsWithSlash rest2 then ['/'] else ['/', '/']
        | _ => ['/']
      else []
    match slashes ++ body with
    | [] => "."
    | r => String.mk r

/-- Character-list prefix test. -/
def prefixL : List Char → List Char → Bool
  | [], _ => true
  | _ :: _, [] => false
  | c :: cs, d :: ds => c == d && prefixL cs ds

/-- Is `p` the directory `dir` itself or a path under it? -/
def withinDir (dir p : String) : Bool := p == dir || prefixL (dir.data ++ ['/']) p.data

/-! ## The whole run (`download_and_extract_media_from_koofr`)

The two HTTP calls, the existence probe for the output directory and the zip
decoder are inputs (an `Env`); the run returns a trace of its side effects.
Printing is not modelled. -/

/-- Outcome of the metadata GET (line 42): an HTTP error status, a
network-level failure, or a JSON body from which `data.get('file', {})
.get('name')` yields an optional string. -/
inductive MetaOutcome where
  | httpError (status : Nat)
  | netError
  | ok (fileName : Option String)

/-- Outcome of the download GET (line 72). -/
inductive DlOutcome where
  | failed
  | ok (content : List Nat)

/-- How the run ends: one terminal error per `sys.exit` site, or success
with the reported count. -/
inductive RunResult where
  | invalidLink
  | metadataHttpError (status : Nat)
  | metadataNetError
  | emptyBundle
  | downloadError
  | corruptArchive
  | success (count : Nat)
deriving DecidableEq

/-- The run's environment: `os.path.exists(output_folder)`, the two HTTP
responses, and `zipfile.ZipFile` opening of the downloaded buffer (`none`
is `BadZipFile`). -/
structure Env where
  outputDirExists : Bool
  meta : MetaOutcome
  dl : DlOutcome
  readZip : List Nat → Option (List ZipEntry)

/-- Observable side effects of one run, in program order: whether
`os.makedirs(output_folder)` ran, the URLs of the requests issued, the file
writes performed, and the terminal result. -/
structure RunTrace where
  madeOutputDir : Bool
  metaRequest : Option String
  dlRequest : Option String
  writes : List (String × List Nat)
  result : RunResult

/-- Embedding of `download_and_extract_media_from_koofr`, following the
source line by line. -/
def runKoofr (linkUrl outputFolder : String) (mediaExts : Option (List String))
    (password : Option String) (env : Env) : RunTrace :=
  -- lines 18-20: default extensions
  let exts := match mediaExts with
    | some l => l
    | none => defaultMediaExtensions
  -- lines 22-23: create the output folder if missing
  let made := !env.outputDirExists
  -- lines 26-32: parse the link
  let parsed := pyUrlparse linkUrl
  match parseLinkId linkUrl with
  | none =>
    { madeOutputDir := made, metaRequest := none, dlRequest := none,
      writes := [], result := .invalidLink }
  | some linkId =>
    let query := if parsed.query = [] then "path=%2F" else String.mk parsed.query
    -- line 35: password parameter (Python truthiness: empty string counts as absent)
    let pwEnc := match password with
      | some p => if p = "" then "" else pyQuote p
      | none => ""
    -- line 38: metadata URL (`password_param` is `"&password=" ++ pwEnc`)
    let apiUrl := "https://app.koofr.net/api/v2/public/links/" ++ linkId
      ++ "/bundle?" ++ query ++ "&password=" ++ pwEnc
    match env.meta with
    | .httpError s =>
      { madeOutputDir := made, metaRequest := some apiUrl, dlRequest := none,
        writes := [], result := .metadataHttpError s }
    | .netError =>
      { madeOutputDir := made, metaRequest := some apiUrl, dlRequest := none,
        writes := [], result := .metadataNetError }
    | .ok fileName =>
      -- lines 56-59: `if not bundle_name` catches a missing and an empty name
      let bundleName := match fileName with
        | some n => n
        | none => ""
      if bundleName = "" then
        { madeOutputDir := made, metaRequest := some apiUrl, dlRequest := none,
          writes := [], result := .emptyBundle }
      else
        -- lines 64-66: download URL
        let dlUrl := "https://app.koofr.net/content/links/" ++ linkId
          ++ "/files/get/" ++ pyQuote (bundleName ++ ".zip") ++ "?" ++ query
          ++ "&password=" ++ pwEnc ++ "&pf=1&force"
        match env.dl with
        | .failed =>
          { madeOutputDir := made, metaRequest := some apiUrl,
            dlRequest := some dlUrl, writes := [], result := .downloadError }
        | .ok bytes =>
          -- lines 80-98: open the buffer as a zip and extract
          match env.readZip bytes with
          | none =>
            { madeOutputDir := made, metaRequest := some apiUrl,
              dlRequest := some dlUrl, writes := [], result := .corruptArchive }
          | some entries =>
            { madeOutputDir := made, metaRequest := some apiUrl,
              dlRequest := some dlUrl,
              writes := extractWrites exts outputFolder entries,
              result := .success (extractLoop exts outputFolder entries emptyFS).1 }

/-! ## Concrete artifacts used by the scenario claims -/

/-- Characters that keep a host or path-segment "plain": no separator, no
query/fragment/params delimiter, no character `urlsplit` deletes.  A share
URL `https://{host}/links/{id}` whose host and identifier are plain parses
predictably. -/
def plainChar (c : Char) : Bool :=
  !(c == '/' || c == '?' || c == '#' || c == ';' || c == '\t' || c == '\r' || c == '\n')

/-- Characters that keep a query string intact while parsing: no fragment
delimiter, no character `urlsplit` deletes. -/
def queryChar (c : Char) : Bool :=
  !(c == '#' || c == '\t' || c == '\r' || c == '\n')

/-- The round-trip scenario archive: `a.jpg`, `b.txt`, `sub/c.png` and the
directory entry `sub/`. -/
def demoArchive : List ZipEntry :=
  [⟨"a.jpg", [1]⟩, ⟨"b.txt", [2]⟩, ⟨"sub/c.png", [3]⟩, ⟨"sub/", []⟩]

/-- A malicious archive entry whose path climbs out of the output folder. -/
def traversalEntry : ZipEntry := ⟨"../evil.jpg", [7]⟩

/-! # Helper lemmas -/

/-- The extraction loop computed in closed form: the count is the number of
entries passing the filter, and the file system receives exactly the write
sequence `extractWrites`. -/
theorem extractLoop_eq (exts : List String) (out : String) (entries : List ZipEntry) :
    ∀ fs : FS,
      extractLoop exts out entries fs =
        ((entries.filter (shouldExtract exts)).length,
         applyWrites (extractWrites exts out entries) fs) := by
  induction entries with
  | nil => intro fs; rfl
  | cons e es ih =>
    intro fs
    cases hd : isDirEntry e with
    | true =>
      have hse : shouldExtract exts e = false := by simp [shouldExtract, hd]
      simp only [extractLoop, hd, if_true, extractWrites, List.filter_cons, hse,
        Bool.false_eq_true, if_false]
      exact ih fs
    | false =>
      cases hm : nameMatches exts e.filename with
      | true =>
        have hse : shouldExtract exts e = true := by simp [shouldExtract, hd, hm]
        simp only [extractLoop, hd, Bool.false_eq_true, if_false, hm, if_true,
          extractWrites, List.filter_cons, hse, List.map_cons, applyWrites]
        rw [ih (fsWrite fs (extractPath out e) e.content)]
        simp [extractWrites]
      | false =>
        have hse : shouldExtract exts e = false := by simp [shouldExtract, hd, hm]
        simp only [extractLoop, hd, hm, Bool.false_eq_true, if_false,
          extractWrites, List.filter_cons, hse]
        exact ih fs

/-- Looking a path up after a write sequence yields the last written value,
else the original content. -/
theorem applyWrites_apply (ws : List (String × List Nat)) :
    ∀ (fs : FS) (q : String),
      applyWrites ws fs q = (lastWriteVal ws q).elim (fs q) some := by
  induction ws with
  | nil => intro fs q; rfl
  | cons pv ws ih =>
    intro fs q
    obtain ⟨p, v⟩ := pv
    simp only [applyWrites, lastWriteVal]
    rw [ih]
    cases hlv : lastWriteVal ws q with
    | some w => simp
    | none =>
      by_cases hpq : p = q
      · subst hpq
        simp [fsWrite]
      · have : ¬ q = p := fun hq => hpq hq.symm
        simp [fsWrite, hpq, this]

/-- Replaying the same write sequence changes nothing. -/
theorem applyWrites_idem (ws : List (String × List Nat)) (fs : FS) :
    applyWrites ws (applyWrites ws fs) = applyWrites ws fs := by
  funext q
  rw [applyWrites_apply, applyWrites_apply]
  cases lastWriteVal ws q <;> simp

/-- A path no write targets keeps its original content. -/
theorem applyWrites_of_not_mem (ws : List (String × List Nat)) (p : String)
    (h : p ∉ ws.map Prod.fst) : ∀ fs : FS, applyWrites ws fs p = fs p := by
  induction ws with
  | nil => intro fs; rfl
  | cons qv ws ih =>
    obtain ⟨q, v⟩ := qv
    simp only [List.map_cons, List.mem_cons, not_or] at h
    intro fs
    simp only [applyWrites]
    rw [ih h.2]
    simp [fsWrite, h.1]

/-- `split('/links/')` on a list without the marker is the singleton list. -/
theorem splitOnLinks_no_marker (s : List Char) (h : containsMarkerB s = false) :
    splitOnLinks s = [s] := by
  induction s using splitOnLinks.induct with
  | case1 => rfl
  | case2 rest ih => simp [containsMarkerB] at h
  | case3 c rest hne hnil ih =>
    rw [containsMarkerB.eq_3 c rest (fun x hc hr => hne x hc hr)] at h
    rw [ih h] at hnil
    cases hnil
  | case4 c rest hne hd tl heq ih =>
    rw [containsMarkerB.eq_3 c rest (fun x hc hr => hne x hc hr)] at h
    rw [splitOnLinks.eq_3 c rest hne, heq]
    rw [ih h] at heq
    cases heq
    rfl

/-- A URL whose parsed path has no `/links/` marker fails the parse. -/
theorem parseLinkId_eq_none (url : String)
    (h : containsMarkerB (pyUrlparse url).path = false) :
    parseLinkId url = none := by
  simp [parseLinkId, splitOnLinks_no_marker _ h]

/-- What `plainChar` guarantees, component by component. -/
theorem plainChar_parts (c : Char) (h : plainChar c = true) :
    (c == '/') = false ∧ (c == '?') = false ∧ (c == '#') = false ∧ (c == ';') = false
    ∧ urlKeepChar c = true ∧ netlocChar c = true := by
  simp only [plainChar, Bool.not_eq_true', Bool.or_eq_false_iff] at h
  obtain ⟨⟨⟨⟨⟨⟨h1, h2⟩, h3⟩, h4⟩, h5⟩, h6⟩, h7⟩ := h
  refine ⟨h1, h2, h3, h4, ?_, ?_⟩
  · simp [urlKeepChar, h5, h6, h7]
  · simp [netlocChar, h1, h2, h3]

/-- A plain character is not a slash. -/
theorem plainChar_not_slash (c : Char) (h : plainChar c = true) : (c == '/') = false :=
  (plainChar_parts c h).1

/-- What `queryChar` guarantees, component by component. -/
theorem queryChar_parts (c : Char) (h : queryChar c = true) :
    (c == '#') = false ∧ urlKeepChar c = true := by
  simp only [queryChar, Bool.not_eq_true', Bool.or_eq_false_iff] at h
  obtain ⟨⟨⟨h1, h2⟩, h3⟩, h4⟩ := h
  exact ⟨h1, by simp [urlKeepChar, h2, h3, h4]⟩

/-- `takeWhile` passes over a block whose characters all satisfy the
predicate. -/
theorem takeWhile_append_all (p : Char → Bool) (l₁ l₂ : List Char)
    (h : ∀ c ∈ l₁, p c = true) :
    (l₁ ++ l₂).takeWhile p = l₁ ++ l₂.takeWhile p := by
  induction l₁ with
  | nil => simp
  | cons c l ih =>
    rw [List.cons_append, List.takeWhile_cons, if_pos (h c (List.mem_cons_self c l)),
      ih (fun d hd => h d (List.mem_cons_of_mem c hd)), List.cons_append]

/-- `dropWhile` passes over a block whose characters all satisfy the
predicate. -/
theorem dropWhile_append_all (p : Char → Bool) (l₁ l₂ : List Char)
    (h : ∀ c ∈ l₁, p c = true) :
    (l₁ ++ l₂).dropWhile p = l₂.dropWhile p := by
  induction l₁ with
  | nil => simp
  | cons c l ih =>
    rw [List.cons_append, List.dropWhile_cons, if_pos (h c (List.mem_cons_self c l)),
      ih (fun d hd => h d (List.mem_cons_of_mem c hd))]

/-- `takeWhile` keeps a list whose characters all satisfy the predicate. -/
theorem takeWhile_all (p : Char → Bool) (l : List Char) (h : ∀ c ∈ l, p c = true) :
    l.takeWhile p = l := by
  have h' := takeWhile_append_all p l [] h
  simpa using h'

/-- `filter urlKeepChar` keeps a list with no tab/CR/LF. -/
theorem filter_keep_all (l : List Char) (h : ∀ c ∈ l, urlKeepChar c = true) :
    l.filter urlKeepChar = l := by
  induction l with
  | nil => rfl
  | cons c t ih =>
    rw [List.filter_cons, if_pos (h c (List.mem_cons_self c t)),
      ih (fun d hd => h d (List.mem_cons_of_mem c hd))]

/-- Membership test distributes over append. -/
theorem containsC_append (x : Char) (l₁ l₂ : List Char) :
    containsC x (l₁ ++ l₂) = (containsC x l₁ || containsC x l₂) := by
  induction l₁ with
  | nil => simp [containsC]
  | cons c l ih => simp [containsC, ih, Bool.or_assoc]

/-- A list none of whose characters equal `x` does not contain `x`. -/
theorem containsC_eq_false_of_all (x : Char) (l : List Char)
    (h : ∀ c ∈ l, (c == x) = false) : containsC x l = false := by
  induction l with
  | nil => rfl
  | cons c t ih =>
    simp [containsC, h c (List.mem_cons_self c t),
      ih (fun d hd => h d (List.mem_cons_of_mem c hd))]

/-- A list without slashes cannot contain the `/links/` marker. -/
theorem containsMarkerB_eq_false (s : List Char) (h : containsC '/' s = false) :
    containsMarkerB s = false := by
  induction s using containsMarkerB.induct with
  | case1 => rfl
  | case2 tail => simp [containsC] at h
  | case3 c rest hne ih =>
    rw [containsMarkerB.eq_3 c rest hne]
    rw [containsC, Bool.or_eq_false_iff] at h
    exact ih h.2

/-- The netloc split on `//host/…` with a plain host. -/
theorem splitNetloc_host (host R : List Char) (hh : ∀ c ∈ host, netlocChar c = true) :
    splitNetloc ('/' :: '/' :: (host ++ '/' :: R)) = (host, '/' :: R) := by
  show (List.takeWhile netlocChar (host ++ '/' :: R),
    List.dropWhile netlocChar (host ++ '/' :: R)) = (host, '/' :: R)
  rw [takeWhile_append_all netlocChar host ('/' :: R) hh,
    dropWhile_append_all netlocChar host ('/' :: R) hh]
  simp [List.takeWhile_cons, List.dropWhile_cons, netlocChar]

/-- The fragment split does nothing without a `#`. -/
theorem splitHash_none (s : List Char) (h : containsC '#' s = false) :
    splitHash s = (s, []) := by simp [splitHash, h]

/-- The query split does nothing without a `?`. -/
theorem splitQmark_none (s : List Char) (h : containsC '?' s = false) :
    splitQmark s = (s, []) := by simp [splitQmark, h]

/-- The query split cuts at the first `?`. -/
theorem splitQmark_at (A q : List Char) (hA : ∀ c ∈ A, (c == '?') = false) :
    splitQmark (A ++ '?' :: q) = (A, q) := by
  have hc : containsC '?' (A ++ '?' :: q) = true := by
    rw [containsC_append]
    simp [containsC]
  have hA' : ∀ c ∈ A, (fun c => !(c == '?')) c = true := fun c hc' => by simp [hA c hc']
  simp only [splitQmark, hc, if_true]
  rw [takeWhile_append_all _ A _ hA', dropWhile_append_all _ A _ hA']
  simp [List.takeWhile_cons, List.dropWhile_cons]

/-- The final segment after the last slash, when it has no slash itself. -/
theorem splitAtLastSlash_snd (A s : List Char) (hs : ∀ c ∈ s, (c == '/') = false) :
    (splitAtLastSlash (A ++ '/' :: s)).2 = s := by
  simp only [splitAtLastSlash]
  rw [List.reverse_append, List.reverse_cons, List.append_assoc]
  rw [takeWhile_append_all _ s.reverse _
    (fun c hc => by simp [hs c (List.mem_reverse.mp hc)])]
  simp [List.takeWhile_cons]

/-- The params split does nothing when the last segment is plain. -/
theorem splitParams_plain (A s : List Char) (hs : ∀ c ∈ s, plainChar c = true) :
    splitParams (A ++ '/' :: s) = (A ++ '/' :: s, []) := by
  have h2 : (splitAtLastSlash (A ++ '/' :: s)).2 = s :=
    splitAtLastSlash_snd A s (fun c hc => plainChar_not_slash c (hs c hc))
  have hsc : containsC ';' s = false :=
    containsC_eq_false_of_all ';' s (fun c hc => (plainChar_parts c (hs c hc)).2.2.2.1)
  simp only [splitParams, h2, hsc]
  simp

/-- Parsing `https://{host}/links/{id}{tail}` — `tail` empty or a query —
yields exactly the path `/links/{id}`. -/
theorem urlparse_share_path (host s tail : List Char)
    (hh : ∀ c ∈ host, plainChar c = true)
    (hi : ∀ c ∈ s, plainChar c = true)
    (ht : tail = [] ∨ ∃ q, tail = '?' :: q ∧ ∀ c ∈ q, queryChar c = true) :
    (urlparseL ("https://".data ++ (host ++ ("/links/".data ++ (s ++ tail))))).path
      = "/links/".data ++ s := by
  have hkeepTail : ∀ c ∈ tail, urlKeepChar c = true := by
    rcases ht with rfl | ⟨q, rfl, hq⟩
    · intro c hc; cases hc
    · intro c hc
      rcases List.mem_cons.mp hc with rfl | hc
      · decide
      · exact (queryChar_parts c (hq c hc)).2
  have hkeep : ∀ c ∈ "https://".data ++ (host ++ ("/links/".data ++ (s ++ tail))),
      urlKeepChar c = true := by
    have hH : ∀ c ∈ "https://".data, urlKeepChar c = true := by decide
    have hM : ∀ c ∈ "/links/".data, urlKeepChar c = true := by decide
    intro c hc
    simp only [List.mem_append] at hc
    rcases hc with hc | hc | hc | hc | hc
    · exact hH c hc
    · exact (plainChar_parts c (hh c hc)).2.2.2.2.1
    · exact hM c hc
    · exact (plainChar_parts c (hi c hc)).2.2.2.2.1
    · exact hkeepTail c hc
  have h0 : ("https://".data ++ (host ++ ("/links/".data ++ (s ++ tail)))).filter urlKeepChar
      = "https://".data ++ (host ++ ("/links/".data ++ (s ++ tail))) :=
    filter_keep_all _ hkeep
  have hnet : ∀ c ∈ host, netlocChar c = true :=
    fun c hc => (plainChar_parts c (hh c hc)).2.2.2.2.2
  have hnohashI : containsC '#' s = false :=
    containsC_eq_false_of_all _ _ (fun c hc => (plainChar_parts c (hi c hc)).2.2.1)
  have hnoqI : containsC '?' s = false :=
    containsC_eq_false_of_all _ _ (fun c hc => (plainChar_parts c (hi c hc)).2.1)
  have hMhash : containsC '#' "/links/".data = false := by decide
  have hMq : containsC '?' "/links/".data = false := by decide
  simp only [urlparseL]
  rw [h0]
  rw [show (splitScheme ("https://".data ++ (host ++ ("/links/".data ++ (s ++ tail))))).2
      = '/' :: '/' :: (host ++ '/' :: ("links/".data ++ (s ++ tail))) from rfl]
  have h2 : (splitNetloc ('/' :: '/' :: (host ++ '/' :: ("links/".data ++ (s ++ tail))))).2
      = '/' :: ("links/".data ++ (s ++ tail)) := by
    rw [splitNetloc_host host _ hnet]
  rw [h2]
  rcases ht with rfl | ⟨q, rfl, hq⟩
  · rw [List.append_nil s]
    have hnohash : containsC '#' ('/' :: ("links/".data ++ s)) = false := by
      rw [show ('/' :: ("links/".data ++ s)) = "/links/".data ++ s from rfl,
        containsC_append, hMhash, hnohashI]
      rfl
    have hnoq : containsC '?' ('/' :: ("links/".data ++ s)) = false := by
      rw [show ('/' :: ("links/".data ++ s)) = "/links/".data ++ s from rfl,
        containsC_append, hMq, hnoqI]
      rfl
    have h3 : (splitHash ('/' :: ("links/".data ++ s))).1 = '/' :: ("links/".data ++ s) := by
      rw [splitHash_none _ hnohash]
    rw [h3]
    have h4 : (splitQmark ('/' :: ("links/".data ++ s))).1 = '/' :: ("links/".data ++ s) := by
      rw [splitQmark_none _ hnoq]
    rw [h4]
    have h5 : (splitParams ('/' :: ("links/".data ++ s))).1 = '/' :: ("links/".data ++ s) := by
      rw [show ('/' :: ("links/".data ++ s)) = "/links".data ++ '/' :: s from rfl]
      rw [splitParams_plain "/links".data s hi]
    rw [h5]
    rfl
  · have hqhash : containsC '#' ('?' :: q) = false := by
      have hq' : containsC '#' q = false :=
        containsC_eq_false_of_all _ _ (fun c hc => (queryChar_parts c (hq c hc)).1)
      rw [containsC, hq']
      rfl
    have hnohash : containsC '#' ('/' :: ("links/".data ++ (s ++ '?' :: q))) = false := by
      rw [show ('/' :: ("links/".data ++ (s ++ '?' :: q))) =
          "/links/".data ++ (s ++ '?' :: q) from rfl,
        containsC_append, containsC_append, hMhash, hnohashI, hqhash]
      rfl
    have h3 : (splitHash ('/' :: ("links/".data ++ (s ++ '?' :: q)))).1
        = '/' :: ("links/".data ++ (s ++ '?' :: q)) := by
      rw [splitHash_none _ hnohash]
    rw [h3]
    have hA : ∀ c ∈ "/links/".data ++ s, (c == '?') = false := by
      intro c hc
      rcases List.mem_append.mp hc with hc | hc
      · revert hc
        have : ∀ c ∈ "/links/".data, (c == '?') = false := by decide
        exact this c
      · exact (plainChar_parts c (hi c hc)).2.1
    have h4 : (splitQmark ('/' :: ("links/".data ++ (s ++ '?' :: q)))).1
        = "/links/".data ++ s := by
      rw [show ('/' :: ("links/".data ++ (s ++ '?' :: q)))
          = ("/links/".data ++ s) ++ '?' :: q from by rw [List.append_assoc]; rfl]
      rw [splitQmark_at _ q hA]
    rw [h4]
    have h5 : (splitParams ("/links/".data ++ s)).1 = "/links/".data ++ s := by
      rw [show ("/links/".data ++ s) = "/links".data ++ '/' :: s from rfl]
      rw [splitParams_plain "/links".data s hi]
    rw [h5]

/-- When a URL's parsed path is `/links/{seg}` with a plain segment, the
parser extracts exactly that segment. -/
theorem parseLinkId_of_path (url : String) (s : List Char)
    (hpath : (pyUrlparse url).path = "/links/".data ++ s)
    (hs : ∀ c ∈ s, plainChar c = true) :
    parseLinkId url = some (String.mk s) := by
  have hnoslash : containsC '/' s = false :=
    containsC_eq_false_of_all _ _ (fun c hc => plainChar_not_slash c (hs c hc))
  have hsplit : splitOnLinks ('/' :: 'l' :: 'i' :: 'n' :: 'k' :: 's' :: '/' :: s) = [[], s] := by
    rw [show splitOnLinks ('/' :: 'l' :: 'i' :: 'n' :: 'k' :: 's' :: '/' :: s)
        = [] :: splitOnLinks s from rfl]
    rw [splitOnLinks_no_marker s (containsMarkerB_eq_false s hnoslash)]
  have htw : s.takeWhile (fun c => !(c == '?')) = s :=
    takeWhile_all _ s (fun c hc => by simp [(plainChar_parts c (hs c hc)).2.1])
  simp [parseLinkId, hpath, hsplit, htw]

/-! # Claim theorems -/

/-- Claim C1: the extractor writes to disk exactly the entries that are not
directories and whose lowercased name ends with a configured suffix — the
file system receives precisely the write sequence of those entries, any
other path is untouched — and the reported count is the number of such
entries.  On the scenario archive (`a.jpg`, `b.txt`, `sub/c.png`, directory
`sub/`) with default suffixes, exactly `a.jpg` and `sub/c.png` are written
and the count is 2. -/
theorem extract_exact_matches :
    (∀ (exts : List String) (out : String) (entries : List ZipEntry) (fs : FS),
      (extractLoop exts out entries fs).1 = (entries.filter (shouldExtract exts)).length
      ∧ (extractLoop exts out entries fs).2 = applyWrites (extractWrites exts out entries) fs
      ∧ ∀ p, p ∉ (extractWrites exts out entries).map Prod.fst →
          (extractLoop exts out entries fs).2 p = fs p)
    ∧ extractWrites defaultMediaExtensions "downloads" demoArchive =
        [("downloads/a.jpg", [1]), ("downloads/sub/c.png", [3])]
    ∧ (extractLoop defaultMediaExtensions "downloads" demoArchive emptyFS).1 = 2 := by
  refine ⟨fun exts out entries fs => ?_, by decide, by decide⟩
  rw [extractLoop_eq exts out entries fs]
  exact ⟨rfl, rfl, fun p hp => applyWrites_of_not_mem _ p hp fs⟩

/-- Witness for C1 at a concrete input: `b.txt` is not among the write
targets, and its path is untouched on disk after extraction. -/
theorem extract_exact_matches_witness :
    "downloads/b.txt" ∉
        (extractWrites defaultMediaExtensions "downloads" demoArchive).map Prod.fst
    ∧ (extractLoop defaultMediaExtensions "downloads" demoArchive emptyFS).2
        "downloads/b.txt" = emptyFS "downloads/b.txt" :=
  ⟨by decide,
   (extract_exact_matches.1 defaultMediaExtensions "downloads" demoArchive emptyFS).2.2
     "downloads/b.txt" (by decide)⟩

/-- Claim C2: an archive entry with a parent-directory traversal path
(`../evil.jpg`) passes the extractor's filter, its destination is the output
directory joined with the raw entry path, the extractor writes it with no
check, and that destination resolves outside the output directory. -/
theorem traversal_write_escapes :
    shouldExtract defaultMediaExtensions traversalEntry = true
    ∧ extractPath "downloads" traversalEntry = "downloads/../evil.jpg"
    ∧ (extractLoop defaultMediaExtensions "downloads" [traversalEntry] emptyFS).2
        "downloads/../evil.jpg" = some [7]
    ∧ normPath "downloads/../evil.jpg" = "evil.jpg"
    ∧ withinDir "downloads" (normPath "downloads/../evil.jpg") = false := by
  refine ⟨by decide, by decide, by decide, by decide, by decide⟩

/-- Counterexample to claim C5 as stated: matching does depend on the letter
case of the configured suffix — `photo.jpg` matches the suffix `.jpg` but
not the suffix `.JPG`, though the two differ only in case. -/
theorem suffix_case_cex :
    nameMatches [".jpg"] "photo.jpg" = true
    ∧ nameMatches [".JPG"] "photo.jpg" = false := by
  refine ⟨by decide, by decide⟩

/-- Claim C5 (amended): extension matching is case-insensitive in the entry
name only — two names equal up to case match identically, and `PHOTO.JPG`
matches `.jpg` — but suffixes are compared verbatim against the lowercased
name, so the suffix `.JPG` does not match `photo.jpg`. -/
theorem name_case_insensitive :
    (∀ (exts : List String) (n₁ n₂ : String),
      toLowerL n₁.data = toLowerL n₂.data →
      nameMatches exts n₁ = nameMatches exts n₂)
    ∧ nameMatches [".jpg"] "PHOTO.JPG" = true
    ∧ nameMatches [".JPG"] "photo.jpg" = false := by
  refine ⟨fun exts n₁ n₂ h => ?_, by decide, by decide⟩
  simp only [nameMatches, h]

/-- Witness for C5's amended theorem at a concrete input: `PHOTO.JPG` and
`photo.jpg` are equal up to case and match the default suffixes alike. -/
theorem name_case_insensitive_witness :
    toLowerL "PHOTO.JPG".data = toLowerL "photo.jpg".data
    ∧ nameMatches defaultMediaExtensions "PHOTO.JPG" =
        nameMatches defaultMediaExtensions "photo.jpg" :=
  ⟨by decide, name_case_insensitive.1 defaultMediaExtensions "PHOTO.JPG" "photo.jpg" (by decide)⟩

/-- Claim C9: extraction is idempotent — running the loop a second time over
the file system produced by the first run reports the same count and leaves
the same final file contents (every destination is overwritten with the same
bytes, not duplicated). -/
theorem extraction_idempotent :
    ∀ (exts : List String) (out : String) (entries : List ZipEntry) (fs : FS),
      (extractLoop exts out entries ((extractLoop exts out entries fs).2)).1
        = (extractLoop exts out entries fs).1
      ∧ (extractLoop exts out entries ((extractLoop exts out entries fs).2)).2
        = (extractLoop exts out entries fs).2 := by
  intro exts out entries fs
  rw [extractLoop_eq exts out entries fs,
    extractLoop_eq exts out entries (applyWrites (extractWrites exts out entries) fs)]
  exact ⟨rfl, applyWrites_idem _ fs⟩

/-- Claim C4: a URL whose path does not contain the literal marker `/links/`
fails with the invalid-link error at parse time, before any HTTP request is
issued. -/
theorem invalid_link_no_request :
    ∀ (url out : String) (mex : Option (List String)) (pw : Option String) (env : Env),
      containsMarkerB (pyUrlparse url).path = false →
      (runKoofr url out mex pw env).result = .invalidLink
      ∧ (runKoofr url out mex pw env).metaRequest = none
      ∧ (runKoofr url out mex pw env).dlRequest = none := by
  intro url out mex pw env h
  have hp := parseLinkId_eq_none url h
  refine ⟨?_, ?_, ?_⟩ <;> simp [runKoofr, hp]

/-- Witness for C4 at a concrete input: a URL without the marker. -/
theorem invalid_link_no_request_witness :
    containsMarkerB (pyUrlparse "https://example.com/nolink/abc").path = false
    ∧ (runKoofr "https://example.com/nolink/abc" "downloads" none none
        ⟨true, .ok none, .failed, fun _ => none⟩).result = .invalidLink :=
  ⟨by decide,
   (invalid_link_no_request "https://example.com/nolink/abc" "downloads" none none
     ⟨true, .ok none, .failed, fun _ => none⟩ (by decide)).1⟩

/-- Claim C6: for a share link that parses, the metadata request URL is
`{base}/api/v2/public/links/{linkId}/bundle?{query}&password={password}`,
where `{query}` is the share URL's query string verbatim, or `path=%2F` when
it is empty, and the password parameter is always present — URL-encoded when
a nonempty password is supplied, empty otherwise. -/
theorem metadata_url_format :
    ∀ (url out : String) (mex : Option (List String)) (pw : Option String)
      (env : Env) (lid : String),
      parseLinkId url = some lid →
      (runKoofr url out mex pw env).metaRequest =
        some ("https://app.koofr.net/api/v2/public/links/" ++ lid ++ "/bundle?"
          ++ (if (pyUrlparse url).query = [] then "path=%2F"
              else String.mk (pyUrlparse url).query)
          ++ "&password="
          ++ (match pw with
              | some p => if p = "" then "" else pyQuote p
              | none => "")) := by
  intro url out mex pw env lid hp
  cases hm : env.meta with
  | httpError s => simp [runKoofr, hp, hm]
  | netError => simp [runKoofr, hp, hm]
  | ok fn =>
    cases fn with
    | none => simp [runKoofr, hp, hm]
    | some bn =>
      by_cases hbn : bn = ""
      · simp [runKoofr, hp, hm, hbn]
      · cases hd : env.dl with
        | failed => simp [runKoofr, hp, hm, hbn, hd]
        | ok bytes =>
          cases hz : env.readZip bytes with
          | none => simp [runKoofr, hp, hm, hbn, hd, hz]
          | some entries => simp [runKoofr, hp, hm, hbn, hd, hz]

/-- Witness for C6 at a concrete input: a share URL with a query and a
password containing a space. -/
theorem metadata_url_format_witness :
    (runKoofr "https://app.koofr.net/links/abc?path=%2Fx" "downloads" none (some "p w")
      ⟨true, .netError, .failed, fun _ => none⟩).metaRequest =
    some ("https://app.koofr.net/api/v2/public/links/" ++ "abc" ++ "/bundle?"
      ++ (if (pyUrlparse "https://app.koofr.net/links/abc?path=%2Fx").query = []
          then "path=%2F"
          else String.mk (pyUrlparse "https://app.koofr.net/links/abc?path=%2Fx").query)
      ++ "&password="
      ++ (match (some "p w" : Option String) with
          | some p => if p = "" then "" else pyQuote p
          | none => "")) :=
  metadata_url_format "https://app.koofr.net/links/abc?path=%2Fx" "downloads" none
    (some "p w") ⟨true, .netError, .failed, fun _ => none⟩ "abc" (by decide)

/-- Claim C7: when the metadata response succeeds but its JSON body lacks
`file.name` or has it empty, the run aborts with the empty-bundle error,
issues no download request and writes nothing. -/
theorem empty_bundle_aborts :
    ∀ (url out : String) (mex : Option (List String)) (pw : Option String)
      (env : Env) (lid : String),
      parseLinkId url = some lid →
      (env.meta = .ok none ∨ env.meta = .ok (some "")) →
      (runKoofr url out mex pw env).result = .emptyBundle
      ∧ (runKoofr url out mex pw env).dlRequest = none
      ∧ (runKoofr url out mex pw env).writes = [] := by
  intro url out mex pw env lid hp hm
  rcases hm with hm | hm <;> refine ⟨?_, ?_, ?_⟩ <;> simp [runKoofr, hp, hm]

/-- Witness for C7 at a concrete input: metadata JSON without `file.name`. -/
theorem empty_bundle_aborts_witness :
    (runKoofr "https://app.koofr.net/links/abc" "downloads" none none
      ⟨true, .ok none, .failed, fun _ => none⟩).result = .emptyBundle
    ∧ (runKoofr "https://app.koofr.net/links/abc" "downloads" none none
        ⟨true, .ok none, .failed, fun _ => none⟩).dlRequest = none :=
  ⟨(empty_bundle_aborts "https://app.koofr.net/links/abc" "downloads" none none
      ⟨true, .ok none, .failed, fun _ => none⟩ "abc" (by decide) (Or.inl rfl)).1,
   (empty_bundle_aborts "https://app.koofr.net/links/abc" "downloads" none none
      ⟨true, .ok none, .failed, fun _ => none⟩ "abc" (by decide) (Or.inl rfl)).2.1⟩

/-- Claim C8: when the downloaded buffer does not open as a zip archive,
the run aborts with the corrupt-archive error and writes no files. -/
theorem corrupt_archive_aborts :
    ∀ (url out : String) (mex : Option (List String)) (pw : Option String)
      (env : Env) (lid bn : String) (bytes : List Nat),
      parseLinkId url = some lid →
      env.meta = .ok (some bn) →
      bn ≠ "" →
      env.dl = .ok bytes →
      env.readZip bytes = none →
      (runKoofr url out mex pw env).result = .corruptArchive
      ∧ (runKoofr url out mex pw env).writes = [] := by
  intro url out mex pw env lid bn bytes hp hm hbn hd hz
  refine ⟨?_, ?_⟩ <;> simp [runKoofr, hp, hm, hbn, hd, hz]

/-- Witness for C8 at a concrete input: a buffer the zip decoder rejects. -/
theorem corrupt_archive_aborts_witness :
    (runKoofr "https://app.koofr.net/links/abc" "downloads" none none
      ⟨true, .ok (some "Album"), .ok [0, 1], fun _ => none⟩).result = .corruptArchive
    ∧ (runKoofr "https://app.koofr.net/links/abc" "downloads" none none
        ⟨true, .ok (some "Album"), .ok [0, 1], fun _ => none⟩).writes = [] :=
  corrupt_archive_aborts "https://app.koofr.net/links/abc" "downloads" none none
    ⟨true, .ok (some "Album"), .ok [0, 1], fun _ => none⟩ "abc" "Album" [0, 1]
    (by decide) rfl (by decide) rfl rfl

/-- Claim C10: on every invocation the output directory is created exactly
when it is missing, and this happens before the URL is validated: a URL
without the `/links/` marker still triggers the directory creation while the
run fails with the invalid-link error and has no other side effect. -/
theorem output_dir_created_on_invalid :
    (∀ (url out : String) (mex : Option (List String)) (pw : Option String) (env : Env),
      (runKoofr url out mex pw env).madeOutputDir = !env.outputDirExists)
    ∧ ∀ (url out : String) (mex : Option (List String)) (pw : Option String) (env : Env),
        containsMarkerB (pyUrlparse url).path = false →
        (runKoofr url out mex pw env).result = .invalidLink
        ∧ (runKoofr url out mex pw env).writes = []
        ∧ (runKoofr url out mex pw env).metaRequest = none
        ∧ (runKoofr url out mex pw env).dlRequest = none := by
  constructor
  · intro url out mex pw env
    cases hp : parseLinkId url with
    | none => simp [runKoofr, hp]
    | some lid =>
      cases hm : env.meta with
      | httpError s => simp [runKoofr, hp, hm]
      | netError => simp [runKoofr, hp, hm]
      | ok fn =>
        cases fn with
        | none => simp [runKoofr, hp, hm]
        | some bn =>
          by_cases hbn : bn = ""
          · simp [runKoofr, hp, hm, hbn]
          · cases hd : env.dl with
            | failed => simp [runKoofr, hp, hm, hbn, hd]
            | ok bytes =>
              cases hz : env.readZip bytes with
              | none => simp [runKoofr, hp, hm, hbn, hd, hz]
              | some entries => simp [runKoofr, hp, hm, hbn, hd, hz]
  · intro url out mex pw env h
    have hp := parseLinkId_eq_none url h
    refine ⟨?_, ?_, ?_, ?_⟩ <;> simp [runKoofr, hp]

/-- Claim C3: for every share URL `https://{host}/links/{id}`, optionally
followed by `?{query}` — host and identifier free of separator, query,
fragment and params delimiters, the query free of fragment delimiters — the
link parser extracts exactly `{id}` as the link identifier. -/
theorem link_id_extraction :
    ∀ host seg q : String,
      host.data.all plainChar = true →
      seg.data.all plainChar = true →
      q.data.all queryChar = true →
      parseLinkId ("https://" ++ host ++ "/links/" ++ seg) = some seg
      ∧ parseLinkId ("https://" ++ host ++ "/links/" ++ seg ++ "?" ++ q) = some seg := by
  intro host seg q hh hi hq
  have hh' := List.all_eq_true.mp hh
  have hi' := List.all_eq_true.mp hi
  have hq' := List.all_eq_true.mp hq
  constructor
  · have hd : ("https://" ++ host ++ "/links/" ++ seg).data
        = "https://".data ++ (host.data ++ ("/links/".data ++ (seg.data ++ []))) := by
      simp [String.data_append, List.append_assoc]
    have hpath : (pyUrlparse ("https://" ++ host ++ "/links/" ++ seg)).path
        = "/links/".data ++ seg.data := by
      show (urlparseL ("https://" ++ host ++ "/links/" ++ seg).data).path = _
      rw [hd]
      exact urlparse_share_path host.data seg.data [] hh' hi' (Or.inl rfl)
    exact parseLinkId_of_path _ seg.data hpath hi'
  · have hd : ("https://" ++ host ++ "/links/" ++ seg ++ "?" ++ q).data
        = "https://".data ++ (host.data ++ ("/links/".data ++ (seg.data ++ '?' :: q.data))) := by
      simp [String.data_append, List.append_assoc]
    have hpath : (pyUrlparse ("https://" ++ host ++ "/links/" ++ seg ++ "?" ++ q)).path
        = "/links/".data ++ seg.data := by
      show (urlparseL ("https://" ++ host ++ "/links/" ++ seg ++ "?" ++ q).data).path = _
      rw [hd]
      exact urlparse_share_path host.data seg.data ('?' :: q.data) hh' hi'
        (Or.inr ⟨q.data, rfl, hq'⟩)
    exact parseLinkId_of_path _ seg.data hpath hi'

/-- Witness for C3 at a concrete input: the identifier of a typical share
URL, with and without a query. -/
theorem link_id_extraction_witness :
    parseLinkId ("https://" ++ "app.koofr.net" ++ "/links/" ++ "c1fab741-0e23") =
      some "c1fab741-0e23"
    ∧ parseLinkId ("https://" ++ "app.koofr.net" ++ "/links/" ++ "c1fab741-0e23"
        ++ "?" ++ "path=%2FB") = some "c1fab741-0e23" :=
  link_id_extraction "app.koofr.net" "c1fab741-0e23" "path=%2FB"
    (by decide) (by decide) (by decide)

/-- Witness for C10 at a concrete input: invalid URL, missing output
directory — the directory is still created. -/
theorem output_dir_created_on_invalid_witness :
    (runKoofr "https://app.koofr.net/share/abc" "out" none none
      ⟨false, .netError, .failed, fun _ => none⟩).madeOutputDir = true
    ∧ (runKoofr "https://app.koofr.net/share/abc" "out" none none
        ⟨false, .netError, .failed, fun _ => none⟩).result = .invalidLink :=
  ⟨output_dir_created_on_invalid.1 "https://app.koofr.net/share/abc" "out" none none
      ⟨false, .netError, .failed, fun _ => none⟩,
   (output_dir_created_on_invalid.2 "https://app.koofr.net/share/abc" "out" none none
      ⟨false, .netError, .failed, fun _ => none⟩ (by decide)).1⟩

end KoofrDL

